import Mathlib

/-!
Verification development for the udp-csv-server repository (src/src/main.rs).

Modeling conventions, used uniformly below:
* Rust `f64` values are modeled as exact rationals (`ℚ`); the arithmetic the
  program performs on them (midpoints, sums, division by a count) is exact on
  the inputs considered here.
* The in-memory CSV tables of the aggregation step store numeric text cells;
  they are modeled as `List (List ℚ)` whose index 0 of each column is the
  header slot (its value is never read by the numeric code paths modeled).
* Rust `Vec` indexing that the source guarantees in range is modeled with
  `List.getD` / `List.set`; a Rust panic in fallible paths is modeled by
  `Option` with `none`.
* Rust `for` loops are modeled either as folds over the iterated index list
  or as structural recursion on the number of completed iterations, which
  performs the same iterations in the same order.
-/

namespace UdpCsv

/-- Numeric value of a list of decimal digit characters, most significant
first, as accumulated left to right. -/
def digitsVal (cs : List Char) : ℕ :=
  cs.foldl (fun acc c => acc * 10 + (c.toNat - 48)) 0

/-- Model of the Rust standard library `f64::from_str` (called through
`str::parse::<f64>` in main.rs lines 29-32 and 40), restricted to finite
decimal literals without an exponent: an optional sign handled by
`parseF64`, then digits with an optional fractional part. Like the Rust
function it rejects the empty string and any string with surrounding
whitespace, which is the behavior the claims depend on. -/
def decimalCore (cs : List Char) : Option ℚ :=
  let intPart := cs.takeWhile Char.isDigit
  match cs.dropWhile Char.isDigit with
  | [] => if intPart.isEmpty then none else some (digitsVal intPart : ℚ)
  | '.' :: frac =>
    if frac.all Char.isDigit && (!intPart.isEmpty || !frac.isEmpty) then
      some ((digitsVal intPart : ℚ) + (digitsVal frac : ℚ) / (10 : ℚ) ^ frac.length)
    else none
  | _ => none

/-- Model of `str::parse::<f64>`: optional leading sign, then a decimal
literal; no whitespace is accepted. -/
def parseF64 (s : String) : Option ℚ :=
  match s.data with
  | '+' :: cs => decimalCore cs
  | '-' :: cs => (decimalCore cs).map (fun q => -q)
  | cs => decimalCore cs

/-- Model of `str::parse::<u8>` (main.rs line 29): optional `+`, decimal
digits, value below 256; rejects whitespace and the empty string. -/
def parseU8 (s : String) : Option ℕ :=
  match s.data with
  | '+' :: cs =>
    if cs ≠ [] ∧ cs.all Char.isDigit ∧ digitsVal cs < 256 then some (digitsVal cs) else none
  | cs =>
    if cs ≠ [] ∧ cs.all Char.isDigit ∧ digitsVal cs < 256 then some (digitsVal cs) else none

/-- `SensorData` of main.rs lines 20-25 (one reading). -/
structure SensorData where
  sensor : ℕ
  x : ℚ
  y : ℚ
  z : ℚ
deriving DecidableEq, Inhabited

/-- `SensorBatch` of main.rs lines 14-17 (one datagram worth of readings). -/
structure SensorBatch where
  sensors : List SensorData
  timestamp : ℚ
deriving DecidableEq, Inhabited

/-- `parse_sensordata` of main.rs lines 27-34: parses one group of four
comma-separated fields, trimming each field. The Rust code indexes a slice
of length 4; out-of-range access is modeled by the default `""`. -/
def parse_sensordata (parts : List String) : Option SensorData := do
  let s ← parseU8 (parts.getD 0 "").trim
  let x ← parseF64 (parts.getD 1 "").trim
  let y ← parseF64 (parts.getD 2 "").trim
  let z ← parseF64 (parts.getD 3 "").trim
  pure ⟨s, x, y, z⟩

/-- Body of `parse_sensor_batch` of main.rs lines 36-58 after the payload has
been split on commas. The leading field is parsed as the timestamp without
trimming (line 40); the remaining field count must be a multiple of 4
(line 47); the groups of four are parsed in order and the whole batch fails
if any group fails (line 54). -/
def parse_fields (parts : List String) : Option SensorBatch :=
  match parts.head? with
  | none => none
  | some time_str =>
    match parseF64 time_str with
    | none => none
    | some time =>
      if (parts.length - 1) % 4 ≠ 0 then none
      else
        match (List.range ((parts.length - 1) / 4)).mapM
            (fun i => parse_sensordata ((parts.drop (i * 4 + 1)).take 4)) with
        | none => none
        | some sensors => some ⟨sensors, time⟩

/-- `parse_sensor_batch` of main.rs lines 36-58. The raw byte payload is
modeled as the UTF-8 string it decodes to (`String::from_utf8_lossy`,
line 37), split on commas (line 38). -/
def parse_sensor_batch (total : String) : Option SensorBatch :=
  parse_fields (total.splitOn ",")

/-- Model of `std::io::ErrorKind` restricted to the distinction main.rs
makes (line 65): the benign interruption kind versus everything else. -/
inductive IoErrorKind where
  | Interrupted : IoErrorKind
  | OtherErr : IoErrorKind
deriving DecidableEq

/-- `get_next_data` of main.rs lines 60-76, with the socket receive modeled
by its outcome `recv` (payload string or error). Both the `Interrupted` arm
(lines 65-68, which logs and then does `return Err(e)`) and the other-error
arm (lines 69-70) propagate the error to the caller. -/
def get_next_data (recv : Except IoErrorKind String) : Except IoErrorKind (Option SensorBatch) :=
  match recv with
  | Except.error e => Except.error e
  | Except.ok payload => Except.ok (parse_sensor_batch payload)

/-- Outcome of one iteration of the ingestion loop in `main` (main.rs lines
260-267): `Err(_) => break`, `None => continue`, `Some(batch) => ingest`. -/
inductive LoopAction where
  | breakLoop : LoopAction
  | continueLoop : LoopAction
  | ingest : SensorBatch → LoopAction
deriving DecidableEq

/-- The receive/parse dispatch of one ingestion loop iteration, main.rs
lines 261-267. -/
def loop_step (recv : Except IoErrorKind String) : LoopAction :=
  match get_next_data recv with
  | Except.error _ => LoopAction.breakLoop
  | Except.ok none => LoopAction.continueLoop
  | Except.ok (some b) => LoopAction.ingest b

/-- The shared columnar buffer and the loaded aggregation table: a list of
columns, each a list of cells. Data cells hold the rational value whose
decimal rendering the Rust code stores; index 0 of a column is its header
slot. -/
abbrev Table := List (List ℚ)

/-- `output_csv[i].push(v)` of main.rs lines 275-278: append one cell at the
end of column `i`. An out-of-range column index leaves the table unchanged
(the Rust code only uses registry column offsets that are in range). -/
def appendCell (csv : Table) (i : ℕ) (v : ℚ) : Table :=
  csv.set i (csv.getD i [] ++ [v])

/-- The per-reading body of the ingestion loop, main.rs lines 270-279: look
up the device id in the registry map `dm`; a miss is fatal (`expect`,
modeled by `none`); otherwise append timestamp, x, y, z to the four columns
of the device block. -/
def ingest_reading (dm : ℕ → Option ℕ) (ts : ℚ) (sd : SensorData) (csv : Table) : Option Table :=
  match dm sd.sensor with
  | none => none
  | some column =>
    some (appendCell (appendCell (appendCell (appendCell csv column ts)
      (column + 1) sd.x) (column + 2) sd.y) (column + 3) sd.z)

/-- Ingest one parsed batch: the `for sensor_data in &batch.sensors` loop of
main.rs lines 270-279, readings processed in order, stopping at the first
fatal lookup miss. -/
def ingest_batch (dm : ℕ → Option ℕ) (b : SensorBatch) (csv : Table) : Option Table :=
  b.sensors.foldlM (fun acc sd => ingest_reading dm b.timestamp sd acc) csv

/-- Ingest a sequence of parsed batches in arrival order (successive
iterations of the ingestion loop of main.rs lines 260-280). -/
def ingest_batches (dm : ℕ → Option ℕ) (bs : List SensorBatch) (csv : Table) : Option Table :=
  bs.foldlM (fun acc b => ingest_batch dm b acc) csv

/-- `save_file` of main.rs lines 78-94 on the text table: rows `0..csv[0].len()`
(the length of the FIRST column), and for each row all columns in order; a
missing cell contributes just the delimiter, a present cell contributes its
text and the delimiter; every row is terminated by a newline. The Rust code
indexes `csv[0]` unconditionally, so an empty table (which would panic) is
modeled by `none`. -/
def save_file (csv : List (List String)) : Option String :=
  match csv with
  | [] => none
  | col0 :: _ =>
    some (String.join ((List.range col0.length).map (fun row =>
      String.join ((List.range csv.length).map (fun column =>
        if (csv.getD column []).length ≤ row then ","
        else (csv.getD column []).getD row "" ++ ",")) ++ "\n")))

/-- Spec-side rendering of one output row, following the words of the spec:
every column contributes its cell at this row index, or an empty cell if the
column is too short, always followed by the delimiter. -/
def spec_render_row (csv : List (List String)) (row : ℕ) : String :=
  String.join (csv.map (fun column => ((column.get? row).getD "") ++ ","))

/-- Spec-side serialization with the row count the CODE uses: one line per
row index up to the length of the first column, each line terminated by a
newline. -/
def spec_save (csv : List (List String)) : String :=
  String.join ((List.range (csv.headD []).length).map (fun row =>
    spec_render_row csv row ++ "\n"))

/-- Spec-side serialization with the row count the CLAIM states: one line
per row index up to the length of the LONGEST column. -/
def spec_save_longest (csv : List (List String)) : String :=
  String.join ((List.range ((csv.map List.length).foldr max 0)).map (fun row =>
    spec_render_row csv row ++ "\n"))

/-- The scan over the data rows of one device block, main.rs lines 159-171:
accumulate x, y, z sums and a count over rows whose timestamp equals the
target or lies in `[lb, ub)`; stop early at the first row whose timestamp
exceeds `ub`. The remaining row indices to visit are the list argument. -/
def scan_rows (timeCol xCol yCol zCol : List ℚ) (tgt lb ub : ℚ) :
    List ℕ → ℚ × ℚ × ℚ × ℕ → ℚ × ℚ × ℚ × ℕ
  | [], acc => acc
  | i :: rest, (sx, sy, sz, cnt) =>
    let t := timeCol.getD i 0
    if t = tgt ∨ (lb ≤ t ∧ t < ub) then
      scan_rows timeCol xCol yCol zCol tgt lb ub rest
        (sx + xCol.getD i 0, sy + yCol.getD i 0, sz + zCol.getD i 0, cnt + 1)
    else if ub < t then (sx, sy, sz, cnt)
    else scan_rows timeCol xCol yCol zCol tgt lb ub rest (sx, sy, sz, cnt)

/-- The sums and count computed for device block `c` at one reference row,
main.rs lines 153-171: scan rows `1..csv[c*5].len()` of the block. -/
def device_sums (csv : Table) (tgt lb ub : ℚ) (c : ℕ) : ℚ × ℚ × ℚ × ℕ :=
  scan_rows (csv.getD (c * 5) []) (csv.getD (c * 5 + 1) []) (csv.getD (c * 5 + 2) [])
    (csv.getD (c * 5 + 3) []) tgt lb ub
    (List.range' 1 ((csv.getD (c * 5) []).length - 1)) (0, 0, 0, 0)

/-- Read cell `(i, j)` of the output table (`target_csv[i][j]`). -/
def getCell (t : Table) (i j : ℕ) : ℚ :=
  (t.getD i []).getD j 0

/-- Write cell `(i, j)` of the output table (`target_csv[i][j] = v`). -/
def setCell (t : Table) (i j : ℕ) (v : ℚ) : Table :=
  t.set i ((t.getD i []).set j v)

/-- The per-device body of the aggregation inner loop, main.rs lines
153-191: if the count is zero and `row_target > 2`, copy the previous
output row of the three device columns (lines 173-183); if the count is
zero otherwise, leave the cells as they are; else write the averages
(lines 185-190). -/
def device_pass (csv : Table) (tgt lb ub : ℚ) (rt : ℕ) (acc : Table) (c : ℕ) : Table :=
  let s := device_sums csv tgt lb ub c
  if s.2.2.2 = 0 then
    if 2 < rt then
      let acc1 := setCell acc (c * 3 + 1) (rt - 1) (getCell acc (c * 3 + 1) (rt - 2))
      let acc2 := setCell acc1 (c * 3 + 2) (rt - 1) (getCell acc1 (c * 3 + 2) (rt - 2))
      setCell acc2 (c * 3 + 3) (rt - 1) (getCell acc2 (c * 3 + 3) (rt - 2))
    else acc
  else
    let acc1 := setCell acc (c * 3 + 1) (rt - 1) (s.1 / (s.2.2.2 : ℚ))
    let acc2 := setCell acc1 (c * 3 + 2) (rt - 1) (s.2.1 / (s.2.2.2 : ℚ))
    setCell acc2 (c * 3 + 3) (rt - 1) (s.2.2.1 / (s.2.2.2 : ℚ))

/-- The aggregation inner loop `for column_i5th in 0..csv.len()/5`
(main.rs line 153), as recursion on the number of completed device passes:
`agg_cols csv tgt lb ub rt acc n` runs the passes for devices `0..n` in
order. -/
def agg_cols (csv : Table) (tgt lb ub : ℚ) (rt : ℕ) (acc : Table) : ℕ → Table
  | 0 => acc
  | n + 1 => device_pass csv tgt lb ub rt (agg_cols csv tgt lb ub rt acc n) n

/-- The target timestamp of reference row `rt`, main.rs lines 137-138. -/
def target_ts (csv : Table) (ref rt : ℕ) : ℚ :=
  (csv.getD (ref * 5) []).getD rt 0

/-- The window bounds of reference row `rt`, main.rs lines 140-151: the
previous reference row if `row_target > 1` else the target itself, the next
reference row if `row_target < len - 1` else the target itself, then the two
midpoints. -/
def window_bounds (csv : Table) (ref L rt : ℕ) : ℚ × ℚ :=
  let refCol := csv.getD (ref * 5) []
  let tgt := refCol.getD rt 0
  let prev := if 1 < rt then refCol.getD (rt - 1) 0 else tgt
  let next := if rt < L - 1 then refCol.getD (rt + 1) 0 else tgt
  ((prev + tgt) / 2, (next + tgt) / 2)

/-- The body of the aggregation outer loop for one reference row `rt`,
main.rs lines 136-191: store the target timestamp in output column 0 at
output row `rt - 1` (line 139), compute the window bounds, then run the
inner loop over all device blocks. -/
def row_pass (csv : Table) (ref L nCols : ℕ) (acc : Table) (rt : ℕ) : Table :=
  let tgt := target_ts csv ref rt
  let acc1 := setCell acc 0 (rt - 1) tgt
  agg_cols csv tgt (window_bounds csv ref L rt).1 (window_bounds csv ref L rt).2 rt acc1 nCols

/-- The aggregation outer loop `for row_target in 1..csv[ref*5].len()`
(main.rs line 136), as recursion on the number of completed rows:
`agg_upto csv ref L nCols acc m` runs rows `1..m` (inclusive) in order. -/
def agg_upto (csv : Table) (ref L nCols : ℕ) (acc : Table) : ℕ → Table
  | 0 => acc
  | m + 1 => row_pass csv ref L nCols (agg_upto csv ref L nCols acc m) (m + 1)

/-- The span of device block `i5` (main.rs lines 115-116 and 120-121): last
cell minus the cell at index 1 (the first data row, index 0 being the
header) of the time column of the block. -/
def span_of (csv : Table) (i5 : ℕ) : ℚ :=
  let col := csv.getD (i5 * 5) []
  col.getD (col.length - 1) 0 - col.getD 1 0

/-- One step of the reference selection loop, main.rs lines 122-125: update
the best pair whenever the span of block `i` is strictly smaller. -/
def refSelect_step (csv : Table) (best : ℕ × ℚ) (i : ℕ) : ℕ × ℚ :=
  if span_of csv i < best.2 then (i, span_of csv i) else best

/-- The reference selection loop run over blocks `1..m` (inclusive),
starting from block 0 (main.rs lines 115-126). -/
def refSelect_go (csv : Table) (m : ℕ) : ℕ × ℚ :=
  (List.range' 1 m).foldl (refSelect_step csv) (0, span_of csv 0)

/-- Reference selection, main.rs lines 114-126: start from block 0, then for
each further block index `1 ≤ i < csv.len()/5` update the best pair whenever
the span is strictly smaller. Returns `(smallest_time_range_i5th,
smallest_time_range)`. -/
def refSelect (csv : Table) : ℕ × ℚ :=
  refSelect_go csv (csv.length / 5 - 1)

/-- `aggregate` of main.rs lines 96-207, numeric core: the loaded table is
the argument, reference selection picks the block with the smallest span,
`target_csv` starts as `csv.len()/5*3 + 1` columns of `csv[ref*5].len()`
zeros (lines 128-134), and the outer loop runs over the reference data rows. -/
def aggregate_core (csv : Table) : Table :=
  let ref := (refSelect csv).1
  let nCols := csv.length / 5
  let L := (csv.getD (ref * 5) []).length
  agg_upto csv ref L nCols (List.replicate (nCols * 3 + 1) (List.replicate L 0)) (L - 1)

/-- The count the aggregation computes for device block `d` at reference
row `r` (the `counted` of main.rs line 167, with the window of row `r`). -/
def window_count (csv : Table) (r d : ℕ) : ℕ :=
  let ref := (refSelect csv).1
  let L := (csv.getD (ref * 5) []).length
  (device_sums csv (target_ts csv ref r) (window_bounds csv ref L r).1
    (window_bounds csv ref L r).2 d).2.2.2

/-- Spec-side window membership test for one data row index. -/
def qualifies (timeCol : List ℚ) (tgt lb ub : ℚ) (i : ℕ) : Bool :=
  decide (timeCol.getD i 0 = tgt ∨ (lb ≤ timeCol.getD i 0 ∧ timeCol.getD i 0 < ub))

/-- Spec-side list of the data row indices of a device block that fall in
the window. -/
def qualifying_rows (timeCol : List ℚ) (tgt lb ub : ℚ) : List ℕ :=
  (List.range' 1 (timeCol.length - 1)).filter (qualifies timeCol tgt lb ub)

/-- Spec-side sums and count: sums of x, y, z and the number of rows over
exactly the qualifying data rows of device block `c`. -/
def spec_sums (csv : Table) (tgt lb ub : ℚ) (c : ℕ) : ℚ × ℚ × ℚ × ℕ :=
  let q := qualifying_rows (csv.getD (c * 5) []) tgt lb ub
  ((q.map (fun i => (csv.getD (c * 5 + 1) []).getD i 0)).sum,
   (q.map (fun i => (csv.getD (c * 5 + 2) []).getD i 0)).sum,
   (q.map (fun i => (csv.getD (c * 5 + 3) []).getD i 0)).sum,
   q.length)

/-- Spec-side selector for the component of the sums tuple written to the
`k`-th of the three output columns of a device block (x for 0, y for 1,
z for 2), divided by the count. -/
def sel3 (k : ℕ) (s : ℚ × ℚ × ℚ × ℕ) : ℚ :=
  if k = 0 then s.1 / (s.2.2.2 : ℚ)
  else if k = 1 then s.2.1 / (s.2.2.2 : ℚ)
  else s.2.2.1 / (s.2.2.2 : ℚ)

/-- Concrete table for the carry-forward claim: block 0 (reference, span 10)
has data timestamps 0, 10; block 1 (span 20) has data timestamps 0, 20 with
x = y = z values 7 and 9. Header slots hold 99. -/
def exTblC1 : Table :=
  [[99, 0, 10], [99, 1, 2], [99, 1, 2], [99, 1, 2], [],
   [99, 0, 20], [99, 7, 9], [99, 7, 9], [99, 7, 9], []]

/-- Concrete table for the windowing claim: block 0 (reference) has data
timestamps 0, 10, 20; block 1 has data timestamps 4, 9, 11 with x = y = z
values 40, 90, 110. Header slots hold 99. -/
def exTblC2 : Table :=
  [[99, 0, 10, 20], [99, 1, 2, 3], [99, 1, 2, 3], [99, 1, 2, 3], [],
   [99, 4, 9, 11], [99, 40, 90, 110], [99, 40, 90, 110], [99, 40, 90, 110], []]

/-- A zero output table of the shape `aggregate` allocates for `exTblC2`. -/
def exInitC2 : Table := List.replicate 7 (List.replicate 4 0)

/-- Concrete table for the reference selection claim: blocks with spans
10, 4 and 7. -/
def exTblC5 : Table :=
  [[99, 0, 10], [], [], [], [],
   [99, 0, 4], [], [], [], [],
   [99, 0, 7], [], [], [], []]

/-- A concrete device registry for the ingestion witnesses: device 3 at
column offset 0. -/
def dmEx : ℕ → Option ℕ :=
  fun n => if n = 3 then some 0 else none

/-- A freshly initialized single-device buffer (header slots hold 9). -/
def bufEx : Table := [[9], [9], [9], [9], [9]]

/-- Two single-reading batches for device 3, in arrival order. -/
def bsEx : List SensorBatch := [⟨[⟨3, 1, 2, 3⟩], 10⟩, ⟨[⟨3, 4, 5, 6⟩], 11⟩]

/-! ### Basic lemmas about table cells -/

lemma getD_set {α : Type} (l : List α) (i j : ℕ) (a d : α) :
    (l.set i a).getD j d = if i = j ∧ i < l.length then a else l.getD j d := by
  by_cases hij : i = j
  · subst hij
    by_cases hl : i < l.length
    · rw [if_pos ⟨rfl, hl⟩, List.getD_eq_getElem?_getD, List.getElem?_set_self hl]
      rfl
    · rw [if_neg (fun hc => hl hc.2), List.set_eq_of_length_le (le_of_not_lt hl)]
  · rw [if_neg (fun hc => hij hc.1), List.getD_eq_getElem?_getD,
      List.getElem?_set_ne hij, ← List.getD_eq_getElem?_getD]

lemma getCell_setCell (t : Table) (i j i' j' : ℕ) (v : ℚ) :
    getCell (setCell t i j v) i' j' =
      if i = i' ∧ i < t.length ∧ j = j' ∧ j < (t.getD i []).length then v
      else getCell t i' j' := by
  unfold getCell setCell
  rw [getD_set]
  by_cases hii : i = i' ∧ i < t.length
  · obtain ⟨hi, hl⟩ := hii
    subst hi
    rw [if_pos ⟨rfl, hl⟩, getD_set]
    by_cases hjj : j = j' ∧ j < (t.getD i []).length
    · rw [if_pos hjj, if_pos ⟨rfl, hl, hjj.1, hjj.2⟩]
    · rw [if_neg hjj]
      rw [if_neg (fun h => hjj ⟨h.2.2.1, h.2.2.2⟩)]
  · rw [if_neg hii]
    rw [if_neg (fun h => hii ⟨h.1, h.2.1⟩)]

lemma getCell_setCell_ne (t : Table) (i j i' j' : ℕ) (v : ℚ) (h : i ≠ i' ∨ j ≠ j') :
    getCell (setCell t i j v) i' j' = getCell t i' j' := by
  rw [getCell_setCell]
  rcases h with h | h
  · rw [if_neg (fun hc => h hc.1)]
  · rw [if_neg (fun hc => h hc.2.2.1)]

lemma getCell_setCell_self (t : Table) (i j : ℕ) (v : ℚ)
    (h1 : i < t.length) (h2 : j < (t.getD i []).length) :
    getCell (setCell t i j v) i j = v := by
  rw [getCell_setCell, if_pos ⟨rfl, h1, rfl, h2⟩]

lemma length_setCell (t : Table) (i j : ℕ) (v : ℚ) :
    (setCell t i j v).length = t.length :=
  List.length_set t i _

lemma colLen_setCell (t : Table) (i j k : ℕ) (v : ℚ) :
    ((setCell t i j v).getD k []).length = (t.getD k []).length := by
  unfold setCell
  rw [getD_set]
  by_cases h : i = k ∧ i < t.length
  · rw [if_pos h, List.length_set, h.1]
  · rw [if_neg h]

lemma getCell_replicate (a b i j : ℕ) :
    getCell (List.replicate a (List.replicate b (0 : ℚ))) i j = 0 := by
  unfold getCell
  rcases Nat.lt_or_ge i a with h | h
  · have h1 : (List.replicate a (List.replicate b (0 : ℚ))).getD i [] = List.replicate b 0 := by
      rw [List.getD_eq_getElem?_getD, List.getElem?_replicate_of_lt h, Option.getD_some]
    rw [h1]
    rcases Nat.lt_or_ge j b with h2 | h2
    · rw [List.getD_eq_getElem?_getD, List.getElem?_replicate_of_lt h2, Option.getD_some]
    · rw [List.getD_eq_default _ _ (by simpa using h2)]
  · have h1 : (List.replicate a (List.replicate b (0 : ℚ))).getD i [] = [] :=
      List.getD_eq_default _ _ (by simpa using h)
    rw [h1, List.getD_nil]

lemma length_appendCell (csv : Table) (i : ℕ) (v : ℚ) :
    (appendCell csv i v).length = csv.length :=
  List.length_set csv i _

lemma getD_appendCell_self (csv : Table) (i : ℕ) (v : ℚ) (h : i < csv.length) :
    (appendCell csv i v).getD i [] = csv.getD i [] ++ [v] := by
  unfold appendCell
  rw [getD_set, if_pos ⟨rfl, h⟩]

lemma getD_appendCell_ne (csv : Table) (i j : ℕ) (v : ℚ) (h : i ≠ j) :
    (appendCell csv i v).getD j [] = csv.getD j [] := by
  unfold appendCell
  rw [getD_set, if_neg (fun hc => h hc.1)]

/-! ### C4: error handling of the datagram receive -/

/-- C4 (code_bug evidence): the claim states that a receive failure of kind
`Interrupted` is logged and the loop re-attempts the receive. In the code,
`get_next_data` returns `Err(e)` for an interrupted receive exactly as for
any other receive error (main.rs lines 65-71), and the ingestion loop in
`main` breaks on every `Err` (line 263), so an interrupted receive
terminates the loop. -/
theorem c4_interrupted_terminates_loop :
    get_next_data (Except.error IoErrorKind.Interrupted) =
      Except.error IoErrorKind.Interrupted ∧
    loop_step (Except.error IoErrorKind.Interrupted) = LoopAction.breakLoop ∧
    loop_step (Except.error IoErrorKind.OtherErr) = LoopAction.breakLoop :=
  ⟨rfl, rfl, rfl⟩

/-! ### C6, C10, C7: the reading parser -/

lemma mapM_option_length {α β : Type} (f : α → Option β) :
    ∀ (l : List α) (l' : List β), l.mapM f = some l' → l'.length = l.length := by
  intro l
  induction l with
  | nil =>
    intro l' h
    rw [List.mapM_nil] at h
    cases h
    rfl
  | cons a l ih =>
    intro l' h
    rw [List.mapM_cons] at h
    cases hfa : f a with
    | none => rw [hfa] at h; simp at h
    | some b =>
      rw [hfa] at h
      cases hml : l.mapM f with
      | none => rw [hml] at h; simp at h
      | some bs =>
        rw [hml] at h
        simp only [Option.bind_eq_bind, Option.some_bind, Option.pure_def,
          Option.some.injEq] at h
        rw [← h, List.length_cons, List.length_cons, ih bs hml]

lemma mapM_option_congr {α β : Type} (f g : α → Option β) :
    ∀ (l : List α), (∀ a ∈ l, f a = g a) → l.mapM f = l.mapM g := by
  intro l
  induction l with
  | nil => intro _; rfl
  | cons a l ih =>
    intro h
    rw [List.mapM_cons, List.mapM_cons, h a (List.mem_cons_self a l),
      ih (fun b hb => h b (List.mem_cons_of_mem a hb))]

/-- C6: a payload whose first field parses as a timestamp and whose
remaining fields form N groups of 4, each parsing as a reading, yields
`some` batch with exactly N readings and that timestamp; a payload whose
trailing field count is not a multiple of 4 yields `none`; a payload in
which any single reading fails to parse yields `none` (no partial
batches). -/
theorem c6_parser_all_or_nothing (total : String) :
    (∀ (t : ℚ) (sensors : List SensorData),
      parseF64 ((total.splitOn ",").headD "") = some t →
      ((total.splitOn ",").length - 1) % 4 = 0 →
      (List.range (((total.splitOn ",").length - 1) / 4)).mapM
        (fun i => parse_sensordata (((total.splitOn ",").drop (i * 4 + 1)).take 4)) =
        some sensors →
      parse_sensor_batch total = some ⟨sensors, t⟩ ∧
        sensors.length = ((total.splitOn ",").length - 1) / 4) ∧
    (((total.splitOn ",").length - 1) % 4 ≠ 0 → parse_sensor_batch total = none) ∧
    ((List.range (((total.splitOn ",").length - 1) / 4)).mapM
        (fun i => parse_sensordata (((total.splitOn ",").drop (i * 4 + 1)).take 4)) =
        none →
      parse_sensor_batch total = none) := by
  rw [show parse_sensor_batch total = parse_fields (total.splitOn ",") from rfl]
  generalize total.splitOn "," = parts
  cases parts with
  | nil =>
    refine ⟨fun t sensors ht _ _ => absurd ht (by simp [parseF64, decimalCore]), ?_, ?_⟩
    · intro _; rfl
    · intro _; rfl
  | cons a l =>
    simp only [List.headD_cons]
    refine ⟨fun t sensors ht hmod hmap => ?_, fun hmod => ?_, fun hmap => ?_⟩
    · constructor
      · simp only [parse_fields, List.head?_cons, ht]
        rw [if_neg (fun hc => hc hmod), hmap]
      · rw [mapM_option_length _ _ _ hmap, List.length_range]
    · cases hfa : parseF64 a with
      | none => simp only [parse_fields, List.head?_cons, hfa]
      | some tv =>
        simp only [parse_fields, List.head?_cons, hfa]
        rw [if_pos hmod]
    · cases hfa : parseF64 a with
      | none => simp only [parse_fields, List.head?_cons, hfa]
      | some tv =>
        simp only [parse_fields, List.head?_cons, hfa]
        by_cases hmod : ((a :: l).length - 1) % 4 ≠ 0
        · rw [if_pos hmod]
        · rw [if_neg hmod, hmap]

/-- C6 witness: the payload `1,2,3,4,5` has one group of four after the
timestamp and parses to a batch with one reading and timestamp 1. -/
theorem c6_witness :
    parse_sensor_batch "1,2,3,4,5" = some ⟨[⟨2, 3, 4, 5⟩], 1⟩ ∧
      [(⟨2, 3, 4, 5⟩ : SensorData)].length = (("1,2,3,4,5".splitOn ",").length - 1) / 4 :=
  (c6_parser_all_or_nothing "1,2,3,4,5").1 1 [⟨2, 3, 4, 5⟩]
    (by with_unfolding_all decide) (by with_unfolding_all decide)
    (by with_unfolding_all decide)

/-- C10: a payload consisting of exactly one field that parses as a
timestamp yields `some` batch with that timestamp and no readings, and
ingesting a batch with no readings appends nothing to any column. -/
theorem c10_timestamp_only_batch (s : String) (t : ℚ)
    (hone : (s.splitOn ",").length = 1)
    (ht : parseF64 ((s.splitOn ",").headD "") = some t) :
    parse_sensor_batch s = some ⟨[], t⟩ ∧
    ∀ (dm : ℕ → Option ℕ) (b : SensorBatch) (csv : Table),
      b.sensors = [] → ingest_batch dm b csv = some csv := by
  constructor
  · rw [show parse_sensor_batch s = parse_fields (s.splitOn ",") from rfl]
    obtain ⟨a, ha⟩ := List.length_eq_one.mp hone
    rw [ha] at ht ⊢
    simp only [List.headD_cons] at ht
    simp [parse_fields, ht]
    rfl
  · intro dm b csv hb
    rw [ingest_batch, hb]
    rfl

/-- C10 witness: the payload `2.5` parses to the empty batch with
timestamp 5/2 and ingesting it leaves the buffer unchanged. -/
theorem c10_witness :
    parse_sensor_batch "2.5" = some ⟨[], 5 / 2⟩ ∧
    ∀ (dm : ℕ → Option ℕ) (b : SensorBatch) (csv : Table),
      b.sensors = [] → ingest_batch dm b csv = some csv :=
  c10_timestamp_only_batch "2.5" (5 / 2) (by with_unfolding_all decide)
    (by with_unfolding_all decide)

lemma getD_take_drop {α : Type} (l : List α) (m j n : ℕ) (d : α) (hj : j < n) :
    ((l.drop m).take n).getD j d = l.getD (m + j) d := by
  rw [List.getD_eq_getElem?_getD, List.getD_eq_getElem?_getD,
    List.getElem?_take_of_lt hj, List.getElem?_drop]

lemma parse_sensordata_congr (p q : List String)
    (h : ∀ j, j < 4 → (p.getD j "").trim = (q.getD j "").trim) :
    parse_sensordata p = parse_sensordata q := by
  unfold parse_sensordata
  rw [h 0 (by omega), h 1 (by omega), h 2 (by omega), h 3 (by omega)]

/-- C7 (amended): every field AFTER the leading timestamp field is trimmed
before parsing, so two field lists of equal length with identical first
field and trim-equivalent later fields parse to the same result. (The
leading timestamp field itself is parsed untrimmed, see the
counterexample.) -/
theorem c7_trim_after_timestamp (p q : List String) (hlen : p.length = q.length)
    (hhead : p.headD "" = q.headD "")
    (htrim : ∀ i, 1 ≤ i → i < p.length → (p.getD i "").trim = (q.getD i "").trim) :
    parse_fields p = parse_fields q := by
  have htrim2 : ∀ i, 1 ≤ i → (p.getD i "").trim = (q.getD i "").trim := by
    intro i h1
    by_cases hi : i < p.length
    · exact htrim i h1 hi
    · rw [List.getD_eq_default _ _ (le_of_not_lt hi),
        List.getD_eq_default _ _ (by omega : q.length ≤ i)]
  cases p with
  | nil =>
    cases q with
    | nil => rfl
    | cons b q2 => simp at hlen
  | cons a p2 =>
    cases q with
    | nil => simp at hlen
    | cons b q2 =>
      simp only [List.headD_cons] at hhead
      subst hhead
      simp only [List.length_cons] at hlen
      have hlen2 : p2.length = q2.length := by omega
      simp only [parse_fields, List.head?_cons]
      cases parseF64 a with
      | none => rfl
      | some tv =>
        simp only [List.length_cons, hlen2]
        by_cases hm : (q2.length + 1 - 1) % 4 ≠ 0
        · rw [if_pos hm, if_pos hm]
        · rw [if_neg hm, if_neg hm]
          have hmap : (List.range ((q2.length + 1 - 1) / 4)).mapM
              (fun i => parse_sensordata (((a :: p2).drop (i * 4 + 1)).take 4)) =
              (List.range ((q2.length + 1 - 1) / 4)).mapM
              (fun i => parse_sensordata (((a :: q2).drop (i * 4 + 1)).take 4)) := by
            apply mapM_option_congr
            intro i _
            apply parse_sensordata_congr
            intro j hj
            rw [getD_take_drop _ _ _ _ _ hj, getD_take_drop _ _ _ _ _ hj]
            exact htrim2 (i * 4 + 1 + j) (by omega)
          rw [hmap]

/-- C7 counterexample: the payloads `1` and ` 1` differ only by whitespace
around the leading timestamp field, yet the first parses and the second
does not, because the timestamp field is parsed without trimming
(main.rs line 40). -/
theorem c7_counterexample :
    (" 1").trim = ("1" : String).trim ∧
    parse_sensor_batch "1" = some ⟨[], 1⟩ ∧
    parse_sensor_batch " 1" = none := by
  refine ⟨?_, ?_, ?_⟩ <;> with_unfolding_all decide

/-- C7 witness: two field lists differing only by whitespace around fields
after the timestamp parse identically. -/
theorem c7_witness :
    parse_fields ["1", " 2 ", "3", "4", "5"] = parse_fields ["1", "2", "3", "4 ", "5"] :=
  c7_trim_after_timestamp ["1", " 2 ", "3", "4", "5"] ["1", "2", "3", "4 ", "5"]
    rfl rfl (by
      intro i h1 h2
      simp only [List.length_cons, List.length_nil] at h2
      interval_cases i <;> with_unfolding_all decide)

/-! ### C3: the table serializer -/

lemma map_range_getD {α β : Type} (d : α) (F : α → β) :
    ∀ (l : List α), (List.range l.length).map (fun i => F (l.getD i d)) = l.map F := by
  intro l
  induction l with
  | nil => rfl
  | cons a l ih =>
    rw [List.length_cons, List.range_succ_eq_map, List.map_cons, List.map_map,
      List.map_cons]
    refine congrArg₂ _ (by rw [List.getD_cons_zero]) ?_
    rw [← ih]
    apply List.map_congr_left
    intro i _
    simp only [Function.comp_apply, Nat.succ_eq_add_one, List.getD_cons_succ]

/-- C3 (amended): for a nonempty column list, the serializer emits one line
per row index up to the length of the FIRST column (row 0 being the header
row), each line containing, for every column in order, the cell at that
row or the empty string if the column is shorter, always followed by the
delimiter, and each line terminated by one newline, including the last.
(The claim said the longest column; the code iterates `0..csv[0].len()`,
see the counterexample.) -/
theorem c3_serializer_rows (csv : List (List String)) (h : csv ≠ []) :
    save_file csv = some (spec_save csv) := by
  cases csv with
  | nil => exact absurd rfl h
  | cons c0 rest =>
    simp only [save_file, spec_save, List.headD_cons, Option.some.injEq]
    refine congrArg _ ?_
    apply List.map_congr_left
    intro row _
    refine congrArg₂ _ ?_ rfl
    unfold spec_render_row
    refine congrArg _ ?_
    rw [← map_range_getD ([] : List String)
      (fun column => ((column.get? row).getD "") ++ ",") (c0 :: rest)]
    apply List.map_congr_left
    intro i _
    by_cases hr : ((c0 :: rest).getD i []).length ≤ row
    · rw [if_pos hr, List.get?_eq_none.mpr hr]
      simp
    · rw [if_neg hr]
      have hlt := lt_of_not_le hr
      simp only [List.getD_eq_getElem?_getD, List.get?_eq_getElem?,
        List.getElem?_eq_getElem hlt, Option.getD_some]

/-- C3 counterexample: with a first column of length 1 and a second column
of length 2, the serializer emits a single line and drops the second row
entirely, while the claim (one line per row index up to the LONGEST
column) calls for two lines. -/
theorem c3_counterexample :
    save_file [["h"], ["h2", "a"]] = some "h,h2,\n" ∧
    spec_save_longest [["h"], ["h2", "a"]] = "h,h2,\n,a,\n" ∧
    save_file [["h"], ["h2", "a"]] ≠ some (spec_save_longest [["h"], ["h2", "a"]]) := by
  refine ⟨?_, ?_, ?_⟩ <;> with_unfolding_all decide

/-- C3 witness: a ragged table whose first column is longest renders the
missing cell of the shorter column as an empty cell between delimiters. -/
theorem c3_witness :
    save_file [["h1", "a"], ["h2"]] = some (spec_save [["h1", "a"], ["h2"]]) :=
  c3_serializer_rows [["h1", "a"], ["h2"]] (by decide)

/-! ### C5: reference selection -/

lemma refSelect_go_spec (csv : Table) :
    ∀ (m : ℕ),
      (refSelect_go csv m).1 ≤ m ∧
      (refSelect_go csv m).2 = span_of csv (refSelect_go csv m).1 ∧
      (∀ j, j ≤ m → (refSelect_go csv m).2 ≤ span_of csv j) ∧
      (∀ j, j < (refSelect_go csv m).1 → (refSelect_go csv m).2 < span_of csv j) := by
  intro m
  induction m with
  | zero =>
    have h0 : refSelect_go csv 0 = (0, span_of csv 0) := rfl
    rw [h0]
    refine ⟨le_refl 0, rfl, ?_, ?_⟩
    · intro j hj
      interval_cases j
      exact le_refl _
    · intro j hj
      omega
  | succ m ih =>
    have hstep : refSelect_go csv (m + 1) =
        refSelect_step csv (refSelect_go csv m) (m + 1) := by
      unfold refSelect_go
      rw [List.range'_concat, List.foldl_append,
        show 1 + 1 * m = m + 1 by omega]
      rfl
    obtain ⟨ih1, ih2, ih3, ih4⟩ := ih
    rw [hstep]
    unfold refSelect_step
    by_cases hlt : span_of csv (m + 1) < (refSelect_go csv m).2
    · rw [if_pos hlt]
      refine ⟨le_refl _, rfl, ?_, ?_⟩
      · intro j hj
        rcases Nat.lt_or_ge j (m + 1) with hj2 | hj2
        · exact le_of_lt (lt_of_lt_of_le hlt (ih3 j (by omega)))
        · have : j = m + 1 := by omega
          rw [this]
      · intro j hj
        exact lt_of_lt_of_le hlt (ih3 j (by omega))
    · rw [if_neg hlt]
      refine ⟨by omega, ih2, ?_, ih4⟩
      intro j hj
      rcases Nat.lt_or_ge j (m + 1) with hj2 | hj2
      · exact ih3 j (by omega)
      · have : j = m + 1 := by omega
        rw [this]
        exact le_of_not_lt hlt

/-- C5: the reference selection picks a block of minimal span, and every
block strictly before the selected one has a strictly larger span (so among
blocks of minimal span the first in column order is selected). -/
theorem c5_reference_selection (csv : Table) :
    (refSelect csv).2 = span_of csv (refSelect csv).1 ∧
    (∀ j, j < csv.length / 5 → span_of csv (refSelect csv).1 ≤ span_of csv j) ∧
    (∀ j, j < (refSelect csv).1 → span_of csv (refSelect csv).1 < span_of csv j) := by
  obtain ⟨h1, h2, h3, h4⟩ := refSelect_go_spec csv (csv.length / 5 - 1)
  refine ⟨h2, ?_, ?_⟩
  · intro j hj
    have := h3 j (by omega)
    rw [h2] at this
    exact this
  · intro j hj
    have := h4 j hj
    rw [h2] at this
    exact this

/-- C5 witness: for blocks with spans 10, 4 and 7, the span-4 block
(index 1) is selected; its span is at most the span of block 2 and
strictly smaller than the span of block 0, which comes before it. -/
theorem c5_witness :
    (refSelect exTblC5).1 = 1 ∧
    span_of exTblC5 (refSelect exTblC5).1 ≤ span_of exTblC5 2 ∧
    span_of exTblC5 (refSelect exTblC5).1 < span_of exTblC5 0 :=
  ⟨by with_unfolding_all decide,
    (c5_reference_selection exTblC5).2.1 2 (by with_unfolding_all decide),
    (c5_reference_selection exTblC5).2.2 0 (by with_unfolding_all decide)⟩

/-! ### C8: ingested rows per device block -/

lemma ingest_reading_at (dm : ℕ → Option ℕ) (ts : ℚ) (sd : SensorData) (csv : Table)
    (col : ℕ) (hmap : dm sd.sensor = some col) (hcol : col + 3 < csv.length) :
    ∃ csv2, ingest_reading dm ts sd csv = some csv2 ∧
      csv2.length = csv.length ∧
      csv2.getD col [] = csv.getD col [] ++ [ts] ∧
      csv2.getD (col + 1) [] = csv.getD (col + 1) [] ++ [sd.x] ∧
      csv2.getD (col + 2) [] = csv.getD (col + 2) [] ++ [sd.y] ∧
      csv2.getD (col + 3) [] = csv.getD (col + 3) [] ++ [sd.z] := by
  refine ⟨appendCell (appendCell (appendCell (appendCell csv col ts)
      (col + 1) sd.x) (col + 2) sd.y) (col + 3) sd.z,
    by simp only [ingest_reading, hmap], ?_, ?_, ?_, ?_, ?_⟩
  · simp only [length_appendCell]
  · rw [getD_appendCell_ne _ _ _ _ (show col + 3 ≠ col by omega),
      getD_appendCell_ne _ _ _ _ (show col + 2 ≠ col by omega),
      getD_appendCell_ne _ _ _ _ (show col + 1 ≠ col by omega),
      getD_appendCell_self _ _ _ (by omega)]
  · rw [getD_appendCell_ne _ _ _ _ (show col + 3 ≠ col + 1 by omega),
      getD_appendCell_ne _ _ _ _ (show col + 2 ≠ col + 1 by omega),
      getD_appendCell_self _ _ _ (by rw [length_appendCell]; omega),
      getD_appendCell_ne _ _ _ _ (show col ≠ col + 1 by omega)]
  · rw [getD_appendCell_ne _ _ _ _ (show col + 3 ≠ col + 2 by omega),
      getD_appendCell_self _ _ _ (by rw [length_appendCell, length_appendCell]; omega),
      getD_appendCell_ne _ _ _ _ (show col + 1 ≠ col + 2 by omega),
      getD_appendCell_ne _ _ _ _ (show col ≠ col + 2 by omega)]
  · rw [getD_appendCell_self _ _ _
      (by rw [length_appendCell, length_appendCell, length_appendCell]; omega),
      getD_appendCell_ne _ _ _ _ (show col + 2 ≠ col + 3 by omega),
      getD_appendCell_ne _ _ _ _ (show col + 1 ≠ col + 3 by omega),
      getD_appendCell_ne _ _ _ _ (show col ≠ col + 3 by omega)]

lemma ingest_batches_single (dm : ℕ → Option ℕ) (d col : ℕ) (hmap : dm d = some col) :
    ∀ (bs : List SensorBatch) (csv0 : Table), col + 3 < csv0.length →
    (∀ b ∈ bs, b.sensors.map SensorData.sensor = [d]) →
    ((ingest_batches dm bs csv0).map (fun c => c.getD col []) =
        some (csv0.getD col [] ++ bs.map SensorBatch.timestamp) ∧
     (ingest_batches dm bs csv0).map (fun c => c.getD (col + 1) []) =
        some (csv0.getD (col + 1) [] ++ bs.map (fun b => (b.sensors.headD default).x)) ∧
     (ingest_batches dm bs csv0).map (fun c => c.getD (col + 2) []) =
        some (csv0.getD (col + 2) [] ++ bs.map (fun b => (b.sensors.headD default).y)) ∧
     (ingest_batches dm bs csv0).map (fun c => c.getD (col + 3) []) =
        some (csv0.getD (col + 3) [] ++ bs.map (fun b => (b.sensors.headD default).z))) := by
  intro bs
  induction bs with
  | nil =>
    intro csv0 _ _
    refine ⟨?_, ?_, ?_, ?_⟩ <;> simp [ingest_batches]
  | cons b rest ih =>
    intro csv0 hcol hone
    have hb := hone b (List.mem_cons_self _ _)
    cases hsens : b.sensors with
    | nil => rw [hsens] at hb; simp at hb
    | cons sd tl =>
      cases tl with
      | cons sd2 tl2 => rw [hsens] at hb; simp at hb
      | nil =>
        rw [hsens] at hb
        simp only [List.map_cons, List.map_nil, List.cons.injEq, and_true] at hb
        obtain ⟨csv2, hread, hlen2, hc0, hc1, hc2, hc3⟩ :=
          ingest_reading_at dm b.timestamp sd csv0 col (by rw [hb, hmap]) hcol
        have hbatch : ingest_batch dm b csv0 = some csv2 := by
          rw [ingest_batch, hsens, List.foldlM_cons, hread]
          simp
        have hsteps : ingest_batches dm (b :: rest) csv0 = ingest_batches dm rest csv2 := by
          rw [ingest_batches, List.foldlM_cons, hbatch]
          simp only [Option.bind_eq_bind, Option.some_bind]
          rfl
        obtain ⟨ih0, ih1, ih2, ih3⟩ := ih csv2 (by omega)
          (fun b2 hb2 => hone b2 (List.mem_cons_of_mem _ hb2))
        rw [hsteps]
        refine ⟨?_, ?_, ?_, ?_⟩
        · rw [ih0, hc0, List.map_cons, List.append_assoc, List.singleton_append]
        · rw [ih1, hc1, List.map_cons, List.append_assoc, List.singleton_append, hsens,
            List.headD_cons]
        · rw [ih2, hc2, List.map_cons, List.append_assoc, List.singleton_append, hsens,
            List.headD_cons]
        · rw [ih3, hc3, List.map_cons, List.append_assoc, List.singleton_append, hsens,
            List.headD_cons]

/-- C8: ingesting K successfully parsed batches, each carrying one reading
for the declared device `d` mapped to column offset `col`, appends exactly
the K timestamps and x, y, z values, in batch-arrival order, to the four
columns of the device block; a reading whose device id is not in the
registry is fatal (the ingestion returns `none`, modeling the panic). -/
theorem c8_ingestion_rows (dm : ℕ → Option ℕ) (d col : ℕ) (bs : List SensorBatch)
    (csv0 : Table) (hmap : dm d = some col) (hcol : col + 3 < csv0.length)
    (hone : ∀ b ∈ bs, b.sensors.map SensorData.sensor = [d]) :
    ((ingest_batches dm bs csv0).map (fun c => c.getD col []) =
        some (csv0.getD col [] ++ bs.map SensorBatch.timestamp) ∧
     (ingest_batches dm bs csv0).map (fun c => c.getD (col + 1) []) =
        some (csv0.getD (col + 1) [] ++ bs.map (fun b => (b.sensors.headD default).x)) ∧
     (ingest_batches dm bs csv0).map (fun c => c.getD (col + 2) []) =
        some (csv0.getD (col + 2) [] ++ bs.map (fun b => (b.sensors.headD default).y)) ∧
     (ingest_batches dm bs csv0).map (fun c => c.getD (col + 3) []) =
        some (csv0.getD (col + 3) [] ++ bs.map (fun b => (b.sensors.headD default).z))) ∧
    (∀ (ts : ℚ) (sd : SensorData) (csv : Table), dm sd.sensor = none →
      ingest_reading dm ts sd csv = none) := by
  refine ⟨ingest_batches_single dm d col hmap bs csv0 hcol hone, ?_⟩
  intro ts sd csv h
  simp only [ingest_reading, h]

/-- C8 witness: two single-reading batches for device 3 appended to a fresh
single-device buffer leave exactly the two timestamps and values, in
arrival order, in the four columns. -/
theorem c8_witness :
    (ingest_batches dmEx bsEx bufEx).map (fun c => c.getD 0 []) =
        some (bufEx.getD 0 [] ++ bsEx.map SensorBatch.timestamp) ∧
    (ingest_batches dmEx bsEx bufEx).map (fun c => c.getD (0 + 1) []) =
        some (bufEx.getD (0 + 1) [] ++ bsEx.map (fun b => (b.sensors.headD default).x)) ∧
    (ingest_batches dmEx bsEx bufEx).map (fun c => c.getD (0 + 2) []) =
        some (bufEx.getD (0 + 2) [] ++ bsEx.map (fun b => (b.sensors.headD default).y)) ∧
    (ingest_batches dmEx bsEx bufEx).map (fun c => c.getD (0 + 3) []) =
        some (bufEx.getD (0 + 3) [] ++ bsEx.map (fun b => (b.sensors.headD default).z)) :=
  (c8_ingestion_rows dmEx 3 0 bsEx bufEx (by with_unfolding_all decide)
    (by with_unfolding_all decide) (by with_unfolding_all decide)).1

/-! ### C9: monotonicity of the per-device time column -/

lemma ingest_reading_col_cases (dm : ℕ → Option ℕ) (ts : ℚ) (sd : SensorData)
    (csv csv2 : Table) (col : ℕ)
    (hrun : ingest_reading dm ts sd csv = some csv2)
    (hsep : ∀ c, dm sd.sensor = some c → c = col ∨ c + 3 < col ∨ col + 3 < c) :
    csv2.getD col [] = csv.getD col [] ++ [ts] ∨ csv2.getD col [] = csv.getD col [] := by
  cases hdm : dm sd.sensor with
  | none =>
    simp only [ingest_reading, hdm] at hrun
    exact Option.noConfusion hrun
  | some c =>
    simp only [ingest_reading, hdm, Option.some.injEq] at hrun
    subst hrun
    rcases hsep c hdm with rfl | hlt | hgt
    · by_cases hc : c < csv.length
      · left
        rw [getD_appendCell_ne _ _ _ _ (show c + 3 ≠ c by omega),
          getD_appendCell_ne _ _ _ _ (show c + 2 ≠ c by omega),
          getD_appendCell_ne _ _ _ _ (show c + 1 ≠ c by omega),
          getD_appendCell_self _ _ _ hc]
      · right
        rw [getD_appendCell_ne _ _ _ _ (show c + 3 ≠ c by omega),
          getD_appendCell_ne _ _ _ _ (show c + 2 ≠ c by omega),
          getD_appendCell_ne _ _ _ _ (show c + 1 ≠ c by omega)]
        unfold appendCell
        rw [getD_set, if_neg (fun hcon => hc hcon.2)]
    · right
      rw [getD_appendCell_ne _ _ _ _ (show c + 3 ≠ col by omega),
        getD_appendCell_ne _ _ _ _ (show c + 2 ≠ col by omega),
        getD_appendCell_ne _ _ _ _ (show c + 1 ≠ col by omega),
        getD_appendCell_ne _ _ _ _ (show c ≠ col by omega)]
    · right
      rw [getD_appendCell_ne _ _ _ _ (show c + 3 ≠ col by omega),
        getD_appendCell_ne _ _ _ _ (show c + 2 ≠ col by omega),
        getD_appendCell_ne _ _ _ _ (show c + 1 ≠ col by omega),
        getD_appendCell_ne _ _ _ _ (show c ≠ col by omega)]

lemma ingest_fold_col (dm : ℕ → Option ℕ) (ts : ℚ) (col : ℕ) :
    ∀ (l : List SensorData) (csv csv2 : Table),
      l.foldlM (fun acc sd => ingest_reading dm ts sd acc) csv = some csv2 →
      (∀ sd ∈ l, ∀ c, dm sd.sensor = some c → c = col ∨ c + 3 < col ∨ col + 3 < c) →
      ∃ k, csv2.getD col [] = csv.getD col [] ++ List.replicate k ts := by
  intro l
  induction l with
  | nil =>
    intro csv csv2 hrun _
    rw [List.foldlM_nil, Option.pure_def] at hrun
    obtain rfl : csv = csv2 := Option.some.inj hrun
    exact ⟨0, by simp⟩
  | cons sd tl ih =>
    intro csv csv2 hrun hsep
    rw [List.foldlM_cons] at hrun
    cases hread : ingest_reading dm ts sd csv with
    | none => rw [hread] at hrun; simp at hrun
    | some csv1 =>
      rw [hread, Option.bind_eq_bind, Option.some_bind] at hrun
      obtain ⟨k, hk⟩ := ih csv1 csv2 hrun
        (fun sd2 h2 => hsep sd2 (List.mem_cons_of_mem _ h2))
      rcases ingest_reading_col_cases dm ts sd csv csv1 col hread
          (hsep sd (List.mem_cons_self _ _)) with h1 | h1
      · refine ⟨k + 1, ?_⟩
        rw [hk, h1, List.append_assoc, List.singleton_append, ← List.replicate_succ]
      · exact ⟨k, by rw [hk, h1]⟩

lemma pairwise_tail_append_replicate (l : List ℚ) (k : ℕ) (a : ℚ)
    (hs : List.Pairwise (· ≤ ·) l.tail) (hb : ∀ v ∈ l.tail, v ≤ a) :
    List.Pairwise (· ≤ ·) (l ++ List.replicate k a).tail := by
  cases l with
  | nil =>
    simp only [List.nil_append]
    exact (List.pairwise_replicate.mpr (Or.inr (le_refl a))).tail
  | cons h t =>
    simp only [List.cons_append, List.tail_cons]
    simp only [List.tail_cons] at hs hb
    rw [List.pairwise_append]
    refine ⟨hs, List.pairwise_replicate.mpr (Or.inr (le_refl a)), ?_⟩
    intro x hx y hy
    exact le_of_le_of_eq (hb x hx) (List.eq_of_mem_replicate hy).symm

lemma mem_tail_append_replicate {v a : ℚ} (l : List ℚ) (k : ℕ)
    (hv : v ∈ (l ++ List.replicate k a).tail) : v ∈ l.tail ∨ v = a := by
  cases l with
  | nil =>
    simp only [List.nil_append] at hv
    exact Or.inr (List.eq_of_mem_replicate (List.mem_of_mem_tail hv))
  | cons h t =>
    simp only [List.cons_append, List.tail_cons] at hv
    rcases List.mem_append.mp hv with h1 | h1
    · exact Or.inl (by simpa using h1)
    · exact Or.inr (List.eq_of_mem_replicate h1)

/-- C9 (amended): the code performs no reordering, so the time column of a
device block is non-decreasing only under the arrival-order assumption the
spec appeals to: if the ingested batch sequence has non-decreasing
timestamps, the device time column at offset `col` starts with a
non-decreasing data tail bounded by the incoming timestamps, and every
reading in the sequence targets either this block or a block wholly
disjoint from it (as registry offsets, multiples of 5, are), then after
ingestion the data rows of the time column are still non-decreasing. The
claim as stated, for arbitrary ingested batches, is refuted by the
counterexample. -/
theorem c9_time_monotone (dm : ℕ → Option ℕ) (col : ℕ) :
    ∀ (bs : List SensorBatch) (csv0 csv2 : Table),
      List.Pairwise (· ≤ ·) (bs.map SensorBatch.timestamp) →
      List.Pairwise (· ≤ ·) (csv0.getD col []).tail →
      (∀ v ∈ (csv0.getD col []).tail, ∀ b ∈ bs, v ≤ b.timestamp) →
      (∀ b ∈ bs, ∀ sd ∈ b.sensors, ∀ c, dm sd.sensor = some c →
        c = col ∨ c + 3 < col ∨ col + 3 < c) →
      ingest_batches dm bs csv0 = some csv2 →
      List.Pairwise (· ≤ ·) (csv2.getD col []).tail := by
  intro bs
  induction bs with
  | nil =>
    intro csv0 csv2 _ hsort _ _ hrun
    rw [ingest_batches, List.foldlM_nil, Option.pure_def] at hrun
    obtain rfl : csv0 = csv2 := Option.some.inj hrun
    exact hsort
  | cons b rest ih =>
    intro csv0 csv2 hmono hsort hbound hsep hrun
    rw [ingest_batches, List.foldlM_cons] at hrun
    cases hbatch : ingest_batch dm b csv0 with
    | none => rw [hbatch] at hrun; simp at hrun
    | some csv1 =>
      rw [hbatch, Option.bind_eq_bind, Option.some_bind] at hrun
      obtain ⟨k, hk⟩ := ingest_fold_col dm b.timestamp col b.sensors csv0 csv1 hbatch
        (fun sd hsd => hsep b (List.mem_cons_self _ _) sd hsd)
      rw [List.map_cons] at hmono
      refine ih csv1 csv2 hmono.of_cons ?_ ?_ ?_ hrun
      · rw [hk]
        exact pairwise_tail_append_replicate _ k _ hsort
          (fun v hv => hbound v hv b (List.mem_cons_self _ _))
      · intro v hv b2 hb2
        rw [hk] at hv
        rcases mem_tail_append_replicate _ k hv with h1 | h1
        · exact hbound v h1 b2 (List.mem_cons_of_mem _ hb2)
        · rw [h1]
          exact List.rel_of_pairwise_cons hmono (List.mem_map_of_mem _ hb2)
      · intro b2 hb2 sd hsd c hc
        exact hsep b2 (List.mem_cons_of_mem _ hb2) sd hsd c hc

/-- C9 counterexample: ingesting two batches for device 3 with timestamps
5 then 3 (out of order, which nothing in the code prevents) leaves the
decreasing data tail 5, 3 in the device time column, so the claimed
invariant fails for this reachable state. -/
theorem c9_counterexample :
    (ingest_batches dmEx [⟨[⟨3, 1, 1, 1⟩], 5⟩, ⟨[⟨3, 2, 2, 2⟩], 3⟩] bufEx).map
        (fun c => (c.getD 0 []).tail) = some [5, 3] ∧
    ¬ List.Pairwise (· ≤ ·) [(5 : ℚ), 3] := by
  constructor
  · with_unfolding_all decide
  · with_unfolding_all decide

/-- C9 witness: ingesting timestamps 3 then 5 for device 3 into a fresh
buffer leaves a non-decreasing time column. -/
theorem c9_witness :
    List.Pairwise (· ≤ ·)
      ((([[9, 3, 5], [9, 1, 2], [9, 1, 2], [9, 1, 2], [9]] : Table).getD 0 []).tail) :=
  c9_time_monotone dmEx 0 [⟨[⟨3, 1, 1, 1⟩], 3⟩, ⟨[⟨3, 2, 2, 2⟩], 5⟩] bufEx
    [[9, 3, 5], [9, 1, 2], [9, 1, 2], [9, 1, 2], [9]]
    (by with_unfolding_all decide)
    (by with_unfolding_all decide)
    (by with_unfolding_all decide)
    (by
      intro b hb sd hsd c hc
      fin_cases hb <;> fin_cases hsd <;> simp [dmEx] at hc <;> omega)
    (by with_unfolding_all decide)

/-! ### C2: window membership of the scan -/

lemma pairwise_range'_le (f : ℕ → ℚ) :
    ∀ (n s : ℕ), List.Pairwise (· ≤ ·) ((List.range' s n).map f) →
      ∀ i j, s ≤ i → i < j → j < s + n → f i ≤ f j := by
  intro n
  induction n with
  | zero => intro s _ i j _ _ h3; omega
  | succ n ih =>
    intro s hp i j h1 h2 h3
    rw [List.range'_succ, List.map_cons] at hp
    rcases Nat.eq_or_lt_of_le h1 with rfl | h1'
    · exact List.rel_of_pairwise_cons hp
        (List.mem_map_of_mem f (List.mem_range'_1.mpr ⟨by omega, by omega⟩))
    · exact ih (s + 1) hp.of_cons i j (by omega) h2 (by omega)

lemma scan_rows_spec (timeCol xCol yCol zCol : List ℚ) (tgt lb ub : ℚ) (hub : tgt ≤ ub) :
    ∀ (idxs : List ℕ) (acc : ℚ × ℚ × ℚ × ℕ),
      List.Pairwise (· ≤ ·) (idxs.map (fun i => timeCol.getD i 0)) →
      scan_rows timeCol xCol yCol zCol tgt lb ub idxs acc =
        (acc.1 + ((idxs.filter (qualifies timeCol tgt lb ub)).map
            (fun i => xCol.getD i 0)).sum,
         acc.2.1 + ((idxs.filter (qualifies timeCol tgt lb ub)).map
            (fun i => yCol.getD i 0)).sum,
         acc.2.2.1 + ((idxs.filter (qualifies timeCol tgt lb ub)).map
            (fun i => zCol.getD i 0)).sum,
         acc.2.2.2 + (idxs.filter (qualifies timeCol tgt lb ub)).length) := by
  intro idxs
  induction idxs with
  | nil =>
    intro acc _
    simp [scan_rows]
  | cons i rest ih =>
    intro acc hp
    obtain ⟨sx, sy, sz, cnt⟩ := acc
    rw [List.map_cons] at hp
    have hhead : ∀ b ∈ rest.map (fun i => timeCol.getD i 0), timeCol.getD i 0 ≤ b :=
      fun b hb => List.rel_of_pairwise_cons hp hb
    have hrest := hp.of_cons
    by_cases hq : timeCol.getD i 0 = tgt ∨ (lb ≤ timeCol.getD i 0 ∧ timeCol.getD i 0 < ub)
    · have hqb : qualifies timeCol tgt lb ub i = true := by
        simp only [qualifies, decide_eq_true_eq]
        exact hq
      simp only [scan_rows]
      rw [if_pos hq, ih _ hrest, List.filter_cons, if_pos hqb, List.map_cons,
        List.map_cons, List.map_cons, List.sum_cons, List.sum_cons, List.sum_cons,
        List.length_cons]
      simp only [Prod.mk.injEq]
      refine ⟨by ring, by ring, by ring, by omega⟩
    · by_cases hb2 : ub < timeCol.getD i 0
      · simp only [scan_rows]
        rw [if_neg hq, if_pos hb2]
        have hnil : (i :: rest).filter (qualifies timeCol tgt lb ub) = [] := by
          rw [List.filter_eq_nil_iff]
          intro a ha
          rcases List.mem_cons.mp ha with rfl | ha2
          · simp only [qualifies, decide_eq_true_eq]
            exact hq
          · have hta : timeCol.getD i 0 ≤ timeCol.getD a 0 :=
              hhead _ (List.mem_map_of_mem _ ha2)
            have hgt : ub < timeCol.getD a 0 := lt_of_lt_of_le hb2 hta
            simp only [qualifies, decide_eq_true_eq]
            push_neg
            refine ⟨?_, ?_⟩
            · intro he
              rw [he] at hgt
              exact absurd hub (not_le.mpr hgt)
            · intro _
              linarith
        rw [hnil]
        simp
      · have hqb : qualifies timeCol tgt lb ub i = false := by
          simp only [qualifies, decide_eq_false_iff_not]
          exact hq
        simp only [scan_rows]
        rw [if_neg hq, if_neg hb2, ih _ hrest]
        simp only [List.filter_cons, hqb, Bool.false_eq_true, if_false]

/-- C2: for every reference row (with the reference and device time columns
non-decreasing over their data rows, the invariant the spec states for
ingested tables), the scan of a device block accumulates sums and a count
over exactly the data rows whose timestamp `t` satisfies `t = target` or
`lb ≤ t < ub`, where the bounds are the midpoints with the previous and
next reference timestamps (the target itself at the first and last row).
In particular, for reference timestamps 0, 10, 20 and a device with samples
at 4, 9, 11 (x values 40, 90, 110), the window of the row at 10 is
`[5, 15)`, the samples at 9 and 11 fall in it and are averaged to 100, and
the sample at 4 falls in the first window `[0, 5)`. -/
theorem c2_window_membership :
    (∀ (csv : Table) (ref rt c : ℕ),
      1 ≤ rt →
      List.Pairwise (· ≤ ·) ((List.range' 1 ((csv.getD (ref * 5) []).length - 1)).map
        (fun i => (csv.getD (ref * 5) []).getD i 0)) →
      List.Pairwise (· ≤ ·) ((List.range' 1 ((csv.getD (c * 5) []).length - 1)).map
        (fun i => (csv.getD (c * 5) []).getD i 0)) →
      device_sums csv (target_ts csv ref rt)
          (window_bounds csv ref (csv.getD (ref * 5) []).length rt).1
          (window_bounds csv ref (csv.getD (ref * 5) []).length rt).2 c =
        spec_sums csv (target_ts csv ref rt)
          (window_bounds csv ref (csv.getD (ref * 5) []).length rt).1
          (window_bounds csv ref (csv.getD (ref * 5) []).length rt).2 c) ∧
    window_bounds exTblC2 0 4 2 = (5, 15) ∧
    window_bounds exTblC2 0 4 1 = (0, 5) ∧
    device_sums exTblC2 10 5 15 1 = (200, 200, 200, 2) ∧
    device_sums exTblC2 0 0 5 1 = (40, 40, 40, 1) ∧
    getCell (device_pass exTblC2 10 5 15 2 exInitC2 1) 4 1 = 100 := by
  refine ⟨?_, ?_, ?_, ?_, ?_, ?_⟩
  · intro csv ref rt c hrt href hdev
    have hnext : target_ts csv ref rt ≤
        (if rt < (csv.getD (ref * 5) []).length - 1
          then (csv.getD (ref * 5) []).getD (rt + 1) 0
          else target_ts csv ref rt) := by
      by_cases hc : rt < (csv.getD (ref * 5) []).length - 1
      · rw [if_pos hc]
        exact pairwise_range'_le (fun i => (csv.getD (ref * 5) []).getD i 0)
          ((csv.getD (ref * 5) []).length - 1) 1 href rt (rt + 1) hrt
          (by omega) (by omega)
      · rw [if_neg hc]
    have hub : target_ts csv ref rt ≤
        (window_bounds csv ref (csv.getD (ref * 5) []).length rt).2 := by
      unfold window_bounds
      dsimp only
      unfold target_ts at hnext ⊢
      by_cases hc : rt < (csv.getD (ref * 5) []).length - 1
      · rw [if_pos hc] at hnext ⊢
        linarith
      · rw [if_neg hc] at hnext ⊢
        linarith
    unfold device_sums spec_sums qualifying_rows
    rw [scan_rows_spec _ _ _ _ _ _ _ hub _ _ hdev]
    simp
  · with_unfolding_all decide
  · with_unfolding_all decide
  · with_unfolding_all decide
  · with_unfolding_all decide
  · with_unfolding_all decide

/-- C2 witness: the scan characterization applied to the worked example at
the reference row with timestamp 10 of the reference block 0. -/
theorem c2_witness :
    device_sums exTblC2 (target_ts exTblC2 0 2)
        (window_bounds exTblC2 0 (exTblC2.getD (0 * 5) []).length 2).1
        (window_bounds exTblC2 0 (exTblC2.getD (0 * 5) []).length 2).2 1 =
      spec_sums exTblC2 (target_ts exTblC2 0 2)
        (window_bounds exTblC2 0 (exTblC2.getD (0 * 5) []).length 2).1
        (window_bounds exTblC2 0 (exTblC2.getD (0 * 5) []).length 2).2 1 :=
  c2_window_membership.1 exTblC2 0 2 1 (by omega)
    (by with_unfolding_all decide) (by with_unfolding_all decide)

/-! ### C1: carry-forward in the aggregation output -/

lemma length_device_pass (csv : Table) (tgt lb ub : ℚ) (rt : ℕ) (acc : Table) (c : ℕ) :
    (device_pass csv tgt lb ub rt acc c).length = acc.length := by
  simp only [device_pass]
  by_cases h1 : (device_sums csv tgt lb ub c).2.2.2 = 0
  · rw [if_pos h1]
    by_cases h2 : 2 < rt
    · rw [if_pos h2]
      simp only [length_setCell]
    · rw [if_neg h2]
  · rw [if_neg h1]
    simp only [length_setCell]

lemma colLen_device_pass (csv : Table) (tgt lb ub : ℚ) (rt : ℕ) (acc : Table) (c k : ℕ) :
    ((device_pass csv tgt lb ub rt acc c).getD k []).length = (acc.getD k []).length := by
  simp only [device_pass]
  by_cases h1 : (device_sums csv tgt lb ub c).2.2.2 = 0
  · rw [if_pos h1]
    by_cases h2 : 2 < rt
    · rw [if_pos h2]
      simp only [colLen_setCell]
    · rw [if_neg h2]
  · rw [if_neg h1]
    simp only [colLen_setCell]

lemma length_agg_cols (csv : Table) (tgt lb ub : ℚ) (rt : ℕ) (acc : Table) :
    ∀ n, (agg_cols csv tgt lb ub rt acc n).length = acc.length := by
  intro n
  induction n with
  | zero => rfl
  | succ n ih =>
    simp only [agg_cols]
    rw [length_device_pass, ih]

lemma colLen_agg_cols (csv : Table) (tgt lb ub : ℚ) (rt : ℕ) (acc : Table) :
    ∀ n k, ((agg_cols csv tgt lb ub rt acc n).getD k []).length = (acc.getD k []).length := by
  intro n
  induction n with
  | zero => intro k; rfl
  | succ n ih =>
    intro k
    simp only [agg_cols]
    rw [colLen_device_pass, ih]

lemma length_row_pass (csv : Table) (ref L nCols : ℕ) (acc : Table) (rt : ℕ) :
    (row_pass csv ref L nCols acc rt).length = acc.length := by
  simp only [row_pass]
  rw [length_agg_cols, length_setCell]

lemma colLen_row_pass (csv : Table) (ref L nCols : ℕ) (acc : Table) (rt k : ℕ) :
    ((row_pass csv ref L nCols acc rt).getD k []).length = (acc.getD k []).length := by
  simp only [row_pass]
  rw [colLen_agg_cols, colLen_setCell]

lemma length_agg_upto (csv : Table) (ref L nCols : ℕ) (acc : Table) :
    ∀ m, (agg_upto csv ref L nCols acc m).length = acc.length := by
  intro m
  induction m with
  | zero => rfl
  | succ m ih =>
    simp only [agg_upto]
    rw [length_row_pass, ih]

lemma colLen_agg_upto (csv : Table) (ref L nCols : ℕ) (acc : Table) :
    ∀ m k, ((agg_upto csv ref L nCols acc m).getD k []).length = (acc.getD k []).length := by
  intro m
  induction m with
  | zero => intro k; rfl
  | succ m ih =>
    intro k
    simp only [agg_upto]
    rw [colLen_row_pass, ih]

lemma getCell_device_pass_ne (csv : Table) (tgt lb ub : ℚ) (rt : ℕ) (acc : Table)
    (c i j : ℕ)
    (h : (i ≠ c * 3 + 1 ∧ i ≠ c * 3 + 2 ∧ i ≠ c * 3 + 3) ∨ j ≠ rt - 1) :
    getCell (device_pass csv tgt lb ub rt acc c) i j = getCell acc i j := by
  have h1 : c * 3 + 1 ≠ i ∨ rt - 1 ≠ j := by tauto
  have h2 : c * 3 + 2 ≠ i ∨ rt - 1 ≠ j := by tauto
  have h3 : c * 3 + 3 ≠ i ∨ rt - 1 ≠ j := by tauto
  simp only [device_pass]
  by_cases hc : (device_sums csv tgt lb ub c).2.2.2 = 0
  · rw [if_pos hc]
    by_cases hr : 2 < rt
    · rw [if_pos hr]
      rw [getCell_setCell_ne _ _ _ _ _ _ h3, getCell_setCell_ne _ _ _ _ _ _ h2,
        getCell_setCell_ne _ _ _ _ _ _ h1]
    · rw [if_neg hr]
  · rw [if_neg hc]
    rw [getCell_setCell_ne _ _ _ _ _ _ h3, getCell_setCell_ne _ _ _ _ _ _ h2,
      getCell_setCell_ne _ _ _ _ _ _ h1]

lemma getCell_agg_cols_ne (csv : Table) (tgt lb ub : ℚ) (rt : ℕ) (acc : Table)
    (i j : ℕ) :
    ∀ n, (∀ c2, c2 < n → ((i ≠ c2 * 3 + 1 ∧ i ≠ c2 * 3 + 2 ∧ i ≠ c2 * 3 + 3) ∨ j ≠ rt - 1)) →
    getCell (agg_cols csv tgt lb ub rt acc n) i j = getCell acc i j := by
  intro n
  induction n with
  | zero => intro _; rfl
  | succ n ih =>
    intro h
    simp only [agg_cols]
    rw [getCell_device_pass_ne _ _ _ _ _ _ _ _ _ (h n (by omega)),
      ih (fun c2 hc2 => h c2 (by omega))]

lemma getCell_row_pass_ne (csv : Table) (ref L nCols : ℕ) (acc : Table) (rt i j : ℕ)
    (hj : j ≠ rt - 1) :
    getCell (row_pass csv ref L nCols acc rt) i j = getCell acc i j := by
  simp only [row_pass]
  rw [getCell_agg_cols_ne _ _ _ _ _ _ _ _ nCols (fun c2 _ => Or.inr hj),
    getCell_setCell_ne _ _ _ _ _ _ (Or.inr (Ne.symm hj))]

lemma getCell_agg_upto_stable (csv : Table) (ref L nCols : ℕ) (acc : Table) (r : ℕ)
    (hr : 1 ≤ r) :
    ∀ m, r ≤ m → ∀ i, getCell (agg_upto csv ref L nCols acc m) i (r - 1) =
      getCell (agg_upto csv ref L nCols acc r) i (r - 1) := by
  intro m
  induction m with
  | zero => intro hm i; omega
  | succ m ih =>
    intro hm i
    rcases Nat.eq_or_lt_of_le hm with he | hlt
    · rw [he]
    · simp only [agg_upto]
      rw [getCell_row_pass_ne _ _ _ _ _ _ _ _ (by omega : r - 1 ≠ m + 1 - 1)]
      exact ih (by omega) i

lemma getCell_agg_upto_ge (csv : Table) (ref L nCols : ℕ) (acc : Table) :
    ∀ m i j, m ≤ j → getCell (agg_upto csv ref L nCols acc m) i j = getCell acc i j := by
  intro m
  induction m with
  | zero => intro i j _; rfl
  | succ m ih =>
    intro i j hj
    simp only [agg_upto]
    rw [getCell_row_pass_ne _ _ _ _ _ _ _ _ (by omega : j ≠ m + 1 - 1)]
    exact ih i j (by omega)

lemma getCell_agg_cols_self (csv : Table) (tgt lb ub : ℚ) (rt d k : ℕ)
    (hk : k < 3) (hrt : 1 ≤ rt) :
    ∀ (n : ℕ) (acc : Table), d < n →
      d * 3 + 1 + k < acc.length → rt - 1 < (acc.getD (d * 3 + 1 + k) []).length →
      getCell (agg_cols csv tgt lb ub rt acc n) (d * 3 + 1 + k) (rt - 1) =
        (if (device_sums csv tgt lb ub d).2.2.2 = 0 then
          (if 2 < rt then getCell acc (d * 3 + 1 + k) (rt - 2)
           else getCell acc (d * 3 + 1 + k) (rt - 1))
         else sel3 k (device_sums csv tgt lb ub d)) := by
  intro n
  induction n with
  | zero => intro acc hd _ _; omega
  | succ n ih =>
    intro acc hd hlenA1 hlenA2
    simp only [agg_cols]
    rcases Nat.lt_or_ge d n with hdn | hdn
    · rw [getCell_device_pass_ne _ _ _ _ _ _ _ _ _
        (Or.inl ⟨by omega, by omega, by omega⟩)]
      exact ih acc hdn hlenA1 hlenA2
    · have hdd : d = n := by omega
      subst hdd
      set A := agg_cols csv tgt lb ub rt acc d with hA
      have hAne : ∀ i2 j2, d * 3 + 1 ≤ i2 → i2 ≤ d * 3 + 3 →
          getCell A i2 j2 = getCell acc i2 j2 := by
        intro i2 j2 hg1 hg2
        rw [hA]
        exact getCell_agg_cols_ne csv tgt lb ub rt acc i2 j2 d
          (fun c2 hc2 => Or.inl ⟨by omega, by omega, by omega⟩)
      have hlen1 : d * 3 + 1 + k < A.length := by
        rw [hA, length_agg_cols]; exact hlenA1
      have hlen2 : rt - 1 < (A.getD (d * 3 + 1 + k) []).length := by
        rw [hA, colLen_agg_cols]; exact hlenA2
      simp only [device_pass]
      by_cases hc : (device_sums csv tgt lb ub d).2.2.2 = 0
      · rw [if_pos hc]
        by_cases hr : 2 < rt
        · rw [if_pos hr]
          interval_cases k
          · rw [show d * 3 + 1 + 0 = d * 3 + 1 from rfl] at hlen1 hlen2 ⊢
            rw [getCell_setCell_ne _ _ _ _ _ _ (Or.inl (by omega)),
              getCell_setCell_ne _ _ _ _ _ _ (Or.inl (by omega)),
              getCell_setCell_self _ _ _ _ hlen1 hlen2,
              hAne _ _ (by omega) (by omega), if_pos hc, if_pos hr]
          · rw [show d * 3 + 1 + 1 = d * 3 + 2 from rfl] at hlen1 hlen2 ⊢
            rw [getCell_setCell_ne _ _ _ _ _ _ (Or.inl (by omega)),
              getCell_setCell_self _ _ _ _ (by rw [length_setCell]; exact hlen1)
                (by rw [colLen_setCell]; exact hlen2),
              getCell_setCell_ne _ _ _ _ _ _ (Or.inl (by omega)),
              hAne _ _ (by omega) (by omega), if_pos hc, if_pos hr]
          · rw [show d * 3 + 1 + 2 = d * 3 + 3 from rfl] at hlen1 hlen2 ⊢
            rw [getCell_setCell_self _ _ _ _
                (by rw [length_setCell, length_setCell]; exact hlen1)
                (by rw [colLen_setCell, colLen_setCell]; exact hlen2),
              getCell_setCell_ne _ _ _ _ _ _ (Or.inl (by omega)),
              getCell_setCell_ne _ _ _ _ _ _ (Or.inl (by omega)),
              hAne _ _ (by omega) (by omega), if_pos hc, if_pos hr]
        · rw [if_neg hr, hAne _ _ (by omega) (by omega), if_pos hc, if_neg hr]
      · rw [if_neg hc]
        interval_cases k
        · rw [show d * 3 + 1 + 0 = d * 3 + 1 from rfl] at hlen1 hlen2 ⊢
          rw [getCell_setCell_ne _ _ _ _ _ _ (Or.inl (by omega)),
            getCell_setCell_ne _ _ _ _ _ _ (Or.inl (by omega)),
            getCell_setCell_self _ _ _ _ hlen1 hlen2, if_neg hc]
          rfl
        · rw [show d * 3 + 1 + 1 = d * 3 + 2 from rfl] at hlen1 hlen2 ⊢
          rw [getCell_setCell_ne _ _ _ _ _ _ (Or.inl (by omega)),
            getCell_setCell_self _ _ _ _ (by rw [length_setCell]; exact hlen1)
              (by rw [colLen_setCell]; exact hlen2), if_neg hc]
          rfl
        · rw [show d * 3 + 1 + 2 = d * 3 + 3 from rfl] at hlen1 hlen2 ⊢
          rw [getCell_setCell_self _ _ _ _
              (by rw [length_setCell, length_setCell]; exact hlen1)
              (by rw [colLen_setCell, colLen_setCell]; exact hlen2), if_neg hc]
          rfl

lemma getCell_row_pass_self (csv : Table) (ref L nCols : ℕ) (acc : Table) (rt d k : ℕ)
    (hk : k < 3) (hrt : 1 ≤ rt) (hd : d < nCols)
    (hlen1 : d * 3 + 1 + k < acc.length)
    (hlen2 : rt - 1 < (acc.getD (d * 3 + 1 + k) []).length) :
    getCell (row_pass csv ref L nCols acc rt) (d * 3 + 1 + k) (rt - 1) =
      (if (device_sums csv (target_ts csv ref rt) (window_bounds csv ref L rt).1
            (window_bounds csv ref L rt).2 d).2.2.2 = 0 then
        (if 2 < rt then getCell acc (d * 3 + 1 + k) (rt - 2)
         else getCell acc (d * 3 + 1 + k) (rt - 1))
       else sel3 k (device_sums csv (target_ts csv ref rt)
            (window_bounds csv ref L rt).1 (window_bounds csv ref L rt).2 d)) := by
  simp only [row_pass]
  rw [getCell_agg_cols_self csv _ _ _ rt d k hk hrt nCols _ hd
    (by rw [length_setCell]; exact hlen1)
    (by rw [colLen_setCell]; exact hlen2)]
  rw [getCell_setCell_ne _ _ _ _ _ _ (Or.inl (by omega)),
    getCell_setCell_ne _ _ _ _ _ _ (Or.inl (by omega))]

/-- C1 (amended): if device block `d` has count zero in the window of
reference data row `r`, then for `r ≥ 3` its three output cells at output
row `r` copy the previous output row exactly, while for `r ≤ 2` (including
`r = 2`, where a previous output row exists) the cells keep the zero
default, because the code guards the carry-forward with `row_target > 2`
(main.rs line 174) instead of `row_target > 1`. -/
theorem c1_carry_forward (csv : Table) (d r k : ℕ) (hk : k < 3)
    (hd : d < csv.length / 5) (hr1 : 1 ≤ r)
    (hrL : r < (csv.getD ((refSelect csv).1 * 5) []).length)
    (hcnt : window_count csv r d = 0) :
    (2 < r → getCell (aggregate_core csv) (d * 3 + 1 + k) (r - 1) =
      getCell (aggregate_core csv) (d * 3 + 1 + k) (r - 2)) ∧
    (r ≤ 2 → getCell (aggregate_core csv) (d * 3 + 1 + k) (r - 1) = 0) := by
  obtain ⟨r0, rfl⟩ : ∃ r0, r = r0 + 1 := ⟨r - 1, by omega⟩
  simp only [window_count] at hcnt
  set ref := (refSelect csv).1 with href
  set nCols := csv.length / 5 with hnC
  set L := (csv.getD (ref * 5) []).length with hL
  set init : Table := List.replicate (nCols * 3 + 1) (List.replicate L 0) with hinit
  have hagg : aggregate_core csv = agg_upto csv ref L nCols init (L - 1) := rfl
  have h1 : getCell (aggregate_core csv) (d * 3 + 1 + k) (r0 + 1 - 1) =
      getCell (agg_upto csv ref L nCols init (r0 + 1)) (d * 3 + 1 + k) (r0 + 1 - 1) := by
    rw [hagg]
    exact getCell_agg_upto_stable csv ref L nCols init (r0 + 1) (by omega)
      (L - 1) (by omega) _
  have h2 : agg_upto csv ref L nCols init (r0 + 1) =
      row_pass csv ref L nCols (agg_upto csv ref L nCols init r0) (r0 + 1) := rfl
  have hlenA : d * 3 + 1 + k < (agg_upto csv ref L nCols init r0).length := by
    rw [length_agg_upto, hinit, List.length_replicate]
    omega
  have hcolA : r0 + 1 - 1 <
      ((agg_upto csv ref L nCols init r0).getD (d * 3 + 1 + k) []).length := by
    rw [colLen_agg_upto, hinit]
    have e : (List.replicate (nCols * 3 + 1) (List.replicate L (0 : ℚ))).getD
        (d * 3 + 1 + k) [] = List.replicate L 0 := by
      rw [List.getD_eq_getElem?_getD, List.getElem?_replicate_of_lt (by omega),
        Option.getD_some]
    rw [e, List.length_replicate]
    omega
  have h3 := getCell_row_pass_self csv ref L nCols
    (agg_upto csv ref L nCols init r0) (r0 + 1) d k hk (by omega) hd hlenA hcolA
  rw [hcnt, if_pos rfl] at h3
  refine ⟨fun h2r => ?_, fun hle => ?_⟩
  · rw [if_pos h2r] at h3
    have h4 : getCell (aggregate_core csv) (d * 3 + 1 + k) (r0 + 1 - 2) =
        getCell (agg_upto csv ref L nCols init r0) (d * 3 + 1 + k) (r0 + 1 - 2) := by
      rw [hagg, show r0 + 1 - 2 = r0 - 1 from by omega]
      exact getCell_agg_upto_stable csv ref L nCols init r0 (by omega)
        (L - 1) (by omega) _
    rw [h1, h2, h3, ← h4]
  · rw [if_neg (by omega)] at h3
    rw [h1, h2, h3,
      getCell_agg_upto_ge csv ref L nCols init r0 _ _ (by omega),
      hinit, getCell_replicate]

/-- C1 counterexample: in `exTblC1` the reference is block 0 (data
timestamps 0 and 10, the smaller span); device block 1 has no sample in the
window of reference row 2 (count zero), a previous output row exists
(`r = 2 ≥ 2`), yet its x cell at output row 2 stays at the zero default
instead of copying the value 7 from output row 1 — the code requires
`row_target > 2` before carrying forward. -/
theorem c1_counterexample :
    window_count exTblC1 2 1 = 0 ∧
    getCell (aggregate_core exTblC1) 4 0 = 7 ∧
    getCell (aggregate_core exTblC1) 4 1 = 0 ∧
    getCell (aggregate_core exTblC1) 4 1 ≠ getCell (aggregate_core exTblC1) 4 0 := by
  refine ⟨?_, ?_, ?_, ?_⟩ <;> with_unfolding_all decide

/-- C1 witness: the amended claim applied at reference row 2 of `exTblC1`
for device block 1 and the x column. -/
theorem c1_witness :
    (2 < 2 → getCell (aggregate_core exTblC1) (1 * 3 + 1 + 0) (2 - 1) =
      getCell (aggregate_core exTblC1) (1 * 3 + 1 + 0) (2 - 2)) ∧
    (2 ≤ 2 → getCell (aggregate_core exTblC1) (1 * 3 + 1 + 0) (2 - 1) = 0) :=
  c1_carry_forward exTblC1 1 2 0 (by omega) (by with_unfolding_all decide) (by omega)
    (by with_unfolding_all decide) (by with_unfolding_all decide)

end UdpCsv
